import Mathlib

/-!
Verification development for the URL-shortener mapping service.

The embedding below follows the JavaScript source of the `UrlShortener`
class (its `splitUrl` parser, the two mongo collections `infos` and
`urls`, and the operations `make`, `add`, `query`, `info`, `deactivate`)
together with the parts of its behaviour that the claims refer to.

Conventions used by the embedding:
* the two mongo collections are association lists keyed by the document
  `_id`; `findOne`, `insertOne` and `updateOne` model the corresponding
  driver calls;
* the external domain validator `isBaseError` from the `lib544` package
  (an external collaborator of the repository, not part of its sources)
  is an explicit parameter `v : String → Option String` of every
  operation that parses a URL, mirroring `isBaseError(base)` returning
  an error message or a falsy value;
* error values are the `code` strings the JavaScript attaches to the
  thrown exceptions ("URL_SYNTAX", "DOMAIN", "NOT_FOUND", ...).
-/

deriving instance DecidableEq for Except

namespace UrlShort

/-- JS `\w` character class (ASCII word character) as used by the
`(\w+):\/\/([^/]+)(.*)` pattern of `splitUrl`. -/
def isWordChar (c : Char) : Bool := c.isAlphanum || c == '_'

/-- Line terminators, the characters a JS regular expression `.` does not
match. -/
def isLineTerm (c : Char) : Bool :=
  c == '\n' || c == '\r' || c == '\u2028' || c == '\u2029'

/-- Head of the list exists and is a word character. -/
def headWord : List Char → Bool
  | c :: _ => isWordChar c
  | [] => false

/-- Head of the list exists and is not a slash. -/
def headNonSlash : List Char → Bool
  | c :: _ => c != '/'
  | [] => false

/-- Leftmost match of the JS regular expression `(\w+):\/\/([^/]+)(.*)`
against a string, returning the three capture groups.  `revPre` holds the
part of the input already scanned, in reverse.  A match is anchored at the
first occurrence of `://` that is immediately preceded by a word character
and immediately followed by a non-slash character; the scheme group is the
maximal word-character run before it, the authority group the maximal
non-slash run after it, and the rest group everything up to the first line
terminator (greedy `.*`). -/
def scanSplit : List Char → List Char → Option (List Char × List Char × List Char)
  | revPre, ':' :: '/' :: '/' :: l =>
    if headWord revPre && headNonSlash l then
      some ((revPre.takeWhile isWordChar).reverse,
            l.takeWhile (fun c => c != '/'),
            (l.dropWhile (fun c => c != '/')).takeWhile (fun c => !isLineTerm c))
    else scanSplit (':' :: revPre) ('/' :: '/' :: l)
  | revPre, c :: l => scanSplit (c :: revPre) l
  | _, [] => none

/-- JS `String.prototype.toLowerCase` on the ASCII range (the only case
mapping exercised by the service, whose scheme and authority characters are
ASCII). -/
def strLower (s : String) : String := ⟨s.data.map Char.toLower⟩

/-- Result of a successful `splitUrl`: scheme and authority ("base")
lowercased, `rest` (path+query+fragment) kept verbatim. -/
structure UrlComponents where
  scheme : String
  base : String
  rest : String
deriving Repr, DecidableEq

/-- Model of the module-level `splitUrl(url, schemeRegex)` function
(source lines 497-515).  `httpFilter = true` models passing the scheme
regex `/^https?$/i`, `httpFilter = false` models passing no regex (as
`make` does).  The validator `v` stands for `isBaseError` of `lib544`. -/
def splitUrl (v : String → Option String) (url : String) (httpFilter : Bool) :
    Except String UrlComponents :=
  match scanSplit [] url.data with
  | none => .error "URL_SYNTAX"
  | some (s, b, r) =>
    match v ⟨b⟩ with
    | some _ => .error "URL_SYNTAX"
    | none =>
      if httpFilter && !(strLower ⟨s⟩ == "http" || strLower ⟨s⟩ == "https") then
        .error "URL_SYNTAX"
      else
        .ok ⟨strLower ⟨s⟩, strLower ⟨b⟩, ⟨r⟩⟩

/-- A document of the `infos` collection, without its `_id` (the `_id`
equals the `shortUrl` field for every document the service creates). -/
structure Info where
  longUrl : String
  shortUrl : String
  count : Nat
  isActive : Bool
deriving Repr, DecidableEq

/-- State of one `UrlShortener` instance: the lowercased shortener base
and the two mongo collections (`infos` maps short key to record, `urls`
maps long key to short key), modeled as association lists keyed by the
document `_id`. -/
structure ShortenerState where
  base : String
  infos : List (String × Info)
  urls : List (String × String)
deriving Repr, DecidableEq

/-- Model of `collection.findOne({_id: k})`. -/
def findOne {α : Type} : List (String × α) → String → Option α
  | [], _ => none
  | (k', w) :: m, k => if k = k' then some w else findOne m k

/-- Model of `collection.insertOne({_id: k, ...})`. -/
def insertOne {α : Type} (m : List (String × α)) (k : String) (w : α) :
    List (String × α) :=
  m ++ [(k, w)]

/-- Model of `collection.updateOne({_id: k}, {$set: ...})`: the first
document with the given `_id` is replaced by `f` of itself. -/
def updateOne {α : Type} : List (String × α) → String → (α → α) → List (String × α)
  | [], _, _ => []
  | (k', w) :: m, k, f => if k' = k then (k', f w) :: m else (k', w) :: updateOne m k f

/-- Model of `UrlShortener._lookupInfo(components)` (source lines
457-469): compute `key = base + rest`; when the base is the shortener's
own base the key is the short key and is looked up directly in `infos`,
otherwise the `urls` index maps the long key to the short key first. -/
def lookupInfo (st : ShortenerState) (c : UrlComponents) : Option Info :=
  let key := c.base ++ c.rest
  if c.base = st.base then findOne st.infos key
  else
    match findOne st.urls key with
    | none => none
    | some shortKey => findOne st.infos shortKey

/-- Shape of the keys produced by `UrlShortener._shorten`: the shortener
base, a slash, and a token (the base-36 rendering of a random number
below 2^32). -/
def shorten (st : ShortenerState) (tok : String) : String :=
  st.base ++ "/" ++ tok

/-- A base-36 digit, the only characters `Number.prototype.toString(36)`
produces. -/
def isB36 (c : Char) : Bool :=
  ('0' ≤ c && c ≤ '9') || ('a' ≤ c && c ≤ 'z')

/-- Tokens `_shorten` can produce: nonempty strings of base-36 digits. -/
def tokOk (t : String) : Prop :=
  t ≠ "" ∧ t.data.all isB36 = true

instance (t : String) : Decidable (tokOk t) := by
  unfold tokOk; infer_instance

/-- Model of `UrlShortener._setActiveStatus(info, status)` (source lines
452-455). -/
def setActiveStatus (st : ShortenerState) (i : Info) (status : Bool) : ShortenerState :=
  { st with infos := updateOne st.infos i.shortUrl (fun j => { j with isActive := status }) }

/-- Model of `UrlShortener.add(longUrl)` (source lines 319-345).  The
randomized key-allocation loop `do { shortKey = this._shorten(components) }
while (await this.infos.findOne({_id: shortKey}))` draws keys until one is
absent from `infos`; its outcome is passed in as the `shortKey` argument,
and the theorems below assume of it exactly the loop's postcondition:
`shortKey` has the shape `_shorten` produces and is not yet a key of
`infos`.  On the paths where the loop does not run (the long URL already
has a record) `shortKey` is ignored, as in the source. -/
def add (v : String → Option String) (st : ShortenerState)
    (longUrl shortKey : String) : Except String (String × ShortenerState) :=
  match splitUrl v longUrl true with
  | .error e => .error e
  | .ok c =>
    if c.base = st.base then .error "DOMAIN"
    else
      match lookupInfo st c with
      | some i =>
        .ok (c.scheme ++ "://" ++ i.shortUrl,
             if i.isActive then st else setActiveStatus st i true)
      | none =>
        .ok (c.scheme ++ "://" ++ shortKey,
             { st with
               infos := insertOne st.infos shortKey
                 ⟨c.base ++ c.rest, shortKey, 0, true⟩,
               urls := insertOne st.urls (c.base ++ c.rest) shortKey })

/-- Model of `UrlShortener.query(shortUrl)` (source lines 365-381).  Note
that the count update writes `info.count + 1` where `info.count` is the
value read by `_lookupInfo`, via `{$set: {count: info.count + 1}}`. -/
def query (v : String → Option String) (st : ShortenerState)
    (shortUrl : String) : Except String (String × ShortenerState) :=
  match splitUrl v shortUrl true with
  | .error e => .error e
  | .ok c =>
    if st.base ≠ c.base then .error "DOMAIN"
    else
      match lookupInfo st c with
      | none => .error "NOT_FOUND"
      | some i =>
        if !i.isActive then .error "NOT_FOUND"
        else
          .ok (c.scheme ++ "://" ++ i.longUrl,
               { st with infos := updateOne st.infos i.shortUrl (fun j => { j with count := i.count + 1 }) })

/-- Model of `UrlShortener.info(url)` (source lines 408-420).  The parse
passes the scheme regex `/^https?$/i`, exactly as in the source. -/
def info (v : String → Option String) (st : ShortenerState)
    (url : String) : Except String Info :=
  match splitUrl v url true with
  | .error e => .error e
  | .ok c =>
    match lookupInfo st c with
    | none => .error "NOT_FOUND"
    | some i => .ok i

/-- Model of `UrlShortener.deactivate(url)` (source lines 439-450). -/
def deactivate (v : String → Option String) (st : ShortenerState)
    (url : String) : Except String ShortenerState :=
  match splitUrl v url true with
  | .error e => .error e
  | .ok c =>
    match lookupInfo st c with
    | none => .error "NOT_FOUND"
    | some i =>
      .ok (if i.isActive then setActiveStatus st i false else st)

/-- Model of the factory `UrlShortener.make(mongoDbUrl, shortenerBase)`
(source lines 257-272): the mongo URL is parsed with no scheme regex and
any parse failure or non-`mongodb` scheme raises `BAD_MONGO_URL`; then the
shortener base is checked with `isBaseError` and a failure raises
`BAD_SHORTENER_BASE`.  The actual database connection is an external
effect and is assumed to succeed; the new instance starts from the
constructor with its base lowercased (the collection contents come from
the connected database and are modeled as empty, i.e. a fresh database). -/
def make (v : String → Option String) (mongoDbUrl shortenerBase : String) :
    Except String ShortenerState :=
  match splitUrl v mongoDbUrl false with
  | .error _ => .error "BAD_MONGO_URL"
  | .ok c =>
    if c.scheme ≠ "mongodb" then .error "BAD_MONGO_URL"
    else
      match v shortenerBase with
      | some _ => .error "BAD_SHORTENER_BASE"
      | none => .ok ⟨strLower shortenerBase, [], []⟩

/-- Iterate `query` on the same short URL, threading the state; used to
state the count-monotonicity claim about `n` successful queries. -/
def iterQuery (v : String → Option String) : Nat → ShortenerState → String →
    Except String ShortenerState
  | 0, st, _ => .ok st
  | Nat.succ n, st, su =>
    match query v st su with
    | .error e => .error e
    | .ok (_, st') => iterQuery v n st' su

/-- The read phase of the count update of `query` (source line 372 reads
the record, line 377 uses its `count` field): the count the operation
reads for a record. -/
def queryReadCount (st : ShortenerState) (key : String) : Option Nat :=
  (findOne st.infos key).map (fun i => i.count)

/-- The write phase of the count update of `query` (source lines 377-378):
`updateOne({_id: key}, {$set: {count: prev + 1}})` where `prev` is the
count obtained by the read phase, not an atomic increment. -/
def queryWriteCount (st : ShortenerState) (key : String) (prev : Nat) : ShortenerState :=
  { st with infos := updateOne st.infos key (fun j => { j with count := prev + 1 }) }

/-- A domain validator accepting every authority; used to instantiate the
external `isBaseError` collaborator in concrete computations. -/
def acceptAll : String → Option String := fun _ => none

/-- A freshly created service instance with base `example.com:3000`. -/
def st0 : ShortenerState := ⟨"example.com:3000", [], []⟩

/-! Lemmas about the association-list model of the mongo collections. -/

theorem findOne_updateOne_self {α : Type} (m : List (String × α)) (k : String) (f : α → α) :
    findOne (updateOne m k f) k = (findOne m k).map f := by
  induction m with
  | nil => rfl
  | cons p m ih =>
    obtain ⟨k', w⟩ := p
    by_cases h : k' = k
    · subst h
      simp [updateOne, findOne]
    · simp only [updateOne, findOne, if_neg h]
      rw [if_neg (fun hk => h hk.symm), if_neg (fun hk => h hk.symm)]
      exact ih

theorem findOne_updateOne_ne {α : Type} (m : List (String × α)) (k s : String) (f : α → α)
    (h : s ≠ k) : findOne (updateOne m k f) s = findOne m s := by
  induction m with
  | nil => rfl
  | cons p m ih =>
    obtain ⟨k', w⟩ := p
    by_cases hk : k' = k
    · subst hk
      simp [updateOne, findOne, fun hs : s = k' => h hs]
    · simp only [updateOne, if_neg hk, findOne]
      by_cases hs : s = k'
      · simp [hs]
      · simp [hs, ih]

theorem findOne_insertOne {α : Type} (m : List (String × α)) (k s : String) (w : α) :
    findOne (insertOne m k w) s =
      match findOne m s with
      | some w' => some w'
      | none => if s = k then some w else none := by
  induction m with
  | nil => rfl
  | cons p m ih =>
    obtain ⟨k', w'⟩ := p
    by_cases hs : s = k'
    · simp [insertOne, findOne, hs]
    · simp only [insertOne, List.cons_append, findOne, if_neg hs]
      exact ih

theorem findOne_insertOne_self {α : Type} (m : List (String × α)) (k : String) (w : α)
    (h : findOne m k = none) : findOne (insertOne m k w) k = some w := by
  rw [findOne_insertOne, h]
  simp

theorem findOne_insertOne_of_some {α : Type} (m : List (String × α)) (k s : String)
    (w w' : α) (h : findOne m s = some w') : findOne (insertOne m k w) s = some w' := by
  rw [findOne_insertOne, h]

theorem findOne_insertOne_ne {α : Type} (m : List (String × α)) (k s : String) (w : α)
    (h : s ≠ k) : findOne (insertOne m k w) s = findOne m s := by
  rw [findOne_insertOne]
  cases hm : findOne m s with
  | none => simp [h]
  | some w' => rfl

/-! Lemmas about strings viewed as character lists. -/

theorem str_data_inj {s t : String} (h : s.data = t.data) : s = t := by
  cases s; cases t; exact congrArg String.mk h

theorem data_append (s t : String) : (s ++ t).data = s.data ++ t.data := rfl

theorem str_append_assoc (a b c : String) : a ++ b ++ c = a ++ (b ++ c) := by
  apply str_data_inj
  simp [data_append, List.append_assoc]

theorem str_append_left_cancel {a b c : String} (h : a ++ b = a ++ c) : b = c := by
  apply str_data_inj
  have := congrArg String.data h
  simp only [data_append] at this
  exact List.append_cancel_left this

theorem takeWhile_all {p : Char → Bool} : ∀ l : List Char,
    (∀ c ∈ l, p c = true) → l.takeWhile p = l := by
  intro l h
  induction l with
  | nil => rfl
  | cons c l ih =>
    simp only [List.takeWhile_cons, h c (List.mem_cons_self c l)]
    simpa using ih (fun d hd => h d (List.mem_cons_of_mem c hd))

theorem takeWhile_append_stop {p : Char → Bool} (l₁ : List Char) (c : Char) (l₂ : List Char)
    (h₁ : ∀ d ∈ l₁, p d = true) (hc : p c = false) :
    (l₁ ++ c :: l₂).takeWhile p = l₁ := by
  induction l₁ with
  | nil => simp [List.takeWhile_cons, hc]
  | cons d l₁ ih =>
    simp only [List.cons_append, List.takeWhile_cons, h₁ d (List.mem_cons_self d l₁)]
    simpa using ih (fun e he => h₁ e (List.mem_cons_of_mem d he))

theorem dropWhile_append_stop {p : Char → Bool} (l₁ : List Char) (c : Char) (l₂ : List Char)
    (h₁ : ∀ d ∈ l₁, p d = true) (hc : p c = false) :
    (l₁ ++ c :: l₂).dropWhile p = c :: l₂ := by
  induction l₁ with
  | nil => simp [List.dropWhile_cons, hc]
  | cons d l₁ ih =>
    simp only [List.cons_append, List.dropWhile_cons, h₁ d (List.mem_cons_self d l₁)]
    simpa using ih (fun e he => h₁ e (List.mem_cons_of_mem d he))

theorem dropWhile_all {p : Char → Bool} : ∀ l : List Char,
    (∀ c ∈ l, p c = true) → l.dropWhile p = [] := by
  intro l h
  induction l with
  | nil => rfl
  | cons c l ih =>
    simp only [List.dropWhile_cons, h c (List.mem_cons_self c l)]
    simpa using ih (fun d hd => h d (List.mem_cons_of_mem c hd))

/-! Lemmas about the regular-expression scan of `splitUrl`. -/

theorem scanSplit_at (revPre l : List Char)
    (h : (headWord revPre && headNonSlash l) = true) :
    scanSplit revPre (':' :: '/' :: '/' :: l) =
      some ((revPre.takeWhile isWordChar).reverse,
            l.takeWhile (fun c => c != '/'),
            (l.dropWhile (fun c => c != '/')).takeWhile (fun c => !isLineTerm c)) := by
  simp only [scanSplit, h, if_true]

theorem scanSplit_step (revPre : List Char) (c : Char) (l : List Char) (hc : c ≠ ':') :
    scanSplit revPre (c :: l) = scanSplit (c :: revPre) l := by
  conv_lhs => rw [scanSplit.eq_def]
  split
  · rename_i heq
    injection heq with h1 h2
    exact absurd h1 hc
  · rename_i hno heq
    injection heq with h1 h2
    subst h1
    subst h2
    rfl
  · rename_i heq
    exact List.noConfusion heq

theorem word_ne_colon {c : Char} (h : isWordChar c = true) : c ≠ ':' := by
  intro hc
  subst hc
  exact absurd h (by decide)

theorem scanSplit_scheme (scheme : List Char)
    (hsw : ∀ c ∈ scheme, isWordChar c = true) : ∀ (revPre l : List Char),
    scanSplit revPre (scheme ++ ':' :: '/' :: '/' :: l) =
      scanSplit (scheme.reverse ++ revPre) (':' :: '/' :: '/' :: l) := by
  induction scheme with
  | nil => intro revPre l; rfl
  | cons c cs ih =>
    intro revPre l
    have hc : c ≠ ':' := word_ne_colon (hsw c (List.mem_cons_self c cs))
    rw [List.cons_append, scanSplit_step revPre c _ hc,
        ih (fun d hd => hsw d (List.mem_cons_of_mem c hd)) (c :: revPre) l]
    simp [List.append_assoc]

theorem scanSplit_reconstruct (scheme base rest : List Char)
    (hsne : scheme ≠ []) (hsw : ∀ c ∈ scheme, isWordChar c = true)
    (hbne : base ≠ []) (hbs : ∀ c ∈ base, c ≠ '/')
    (hr : rest = [] ∨ ∃ r', rest = '/' :: r')
    (hrl : ∀ c ∈ rest, isLineTerm c = false) :
    scanSplit [] (scheme ++ ':' :: '/' :: '/' :: (base ++ rest)) =
      some (scheme, base, rest) := by
  rw [scanSplit_scheme scheme hsw [] (base ++ rest)]
  have hhw : headWord (scheme.reverse ++ []) = true := by
    rw [List.append_nil]
    cases hrev : scheme.reverse with
    | nil =>
      exact absurd (by simpa using congrArg List.reverse hrev) hsne
    | cons c t =>
      have hc : c ∈ scheme := by
        have hm : c ∈ scheme.reverse := by rw [hrev]; exact List.mem_cons_self c t
        simpa using hm
      simpa [headWord] using hsw c hc
  have hhs : headNonSlash (base ++ rest) = true := by
    cases base with
    | nil => exact absurd rfl hbne
    | cons b t =>
      have hb : b ≠ '/' := hbs b (List.mem_cons_self b t)
      simpa [headNonSlash] using hb
  rw [scanSplit_at _ _ (by rw [hhw, hhs]; rfl)]
  have hbs' : ∀ c ∈ base, (c != '/') = true := by
    intro c hc; simpa using hbs c hc
  have htw : (base ++ rest).takeWhile (fun c => c != '/') = base := by
    rcases hr with hr | ⟨r', hr⟩
    · subst hr; rw [List.append_nil]; exact takeWhile_all base hbs'
    · subst hr; exact takeWhile_append_stop base '/' r' hbs' (by decide)
  have hdw : ((base ++ rest).dropWhile (fun c => c != '/')).takeWhile
      (fun c => !isLineTerm c) = rest := by
    rcases hr with hr | ⟨r', hr⟩
    · subst hr; rw [List.append_nil, dropWhile_all base hbs']; rfl
    · subst hr
      rw [dropWhile_append_stop base '/' r' hbs' (by decide)]
      exact takeWhile_all _ (fun c hc => by simpa using hrl c hc)
  rw [htw, hdw, List.append_nil, takeWhile_all _ (by intro c hc; exact hsw c (by simpa using hc)),
      List.reverse_reverse]

/-- Parsing the reconstruction `scheme://base+rest` of already normalized
components succeeds and returns them unchanged (the authority is lowered
again, which theorems discharge through the `Wf` invariant below). -/
theorem splitUrl_reconstruct (v : String → Option String) (scheme base rest : String)
    (hs : scheme = "http" ∨ scheme = "https")
    (hbne : base ≠ "") (hbs : ∀ c ∈ base.data, c ≠ '/')
    (hr : rest.data = [] ∨ ∃ rd, rest.data = '/' :: rd)
    (hrl : ∀ c ∈ rest.data, isLineTerm c = false)
    (hv : v base = none) :
    splitUrl v (scheme ++ "://" ++ (base ++ rest)) true =
      .ok ⟨scheme, strLower base, rest⟩ := by
  have hdata : (scheme ++ "://" ++ (base ++ rest)).data =
      scheme.data ++ ':' :: '/' :: '/' :: (base.data ++ rest.data) := by
    simp [data_append]
  have hbne' : base.data ≠ [] := by
    intro h; exact hbne (str_data_inj (s := base) (t := "") h)
  have hscan : scanSplit [] (scheme ++ "://" ++ (base ++ rest)).data =
      some (scheme.data, base.data, rest.data) := by
    rw [hdata]
    apply scanSplit_reconstruct
    · rcases hs with h | h <;> subst h <;> decide
    · rcases hs with h | h <;> subst h <;> decide
    · exact hbne'
    · exact hbs
    · exact hr
    · exact hrl
  rw [splitUrl, hscan]
  show (match v base with
    | some _ => Except.error "URL_SYNTAX"
    | none => _) = _
  rw [hv]
  rcases hs with h | h <;> subst h <;>
    simp [strLower, data_append]

/-- Every URL accepted by a parse that passes the `/^https?$/i` filter has
scheme `http` or `https` after normalization. -/
theorem splitUrl_scheme_cases (v : String → Option String) (u : String)
    (c : UrlComponents) (h : splitUrl v u true = .ok c) :
    c.scheme = "http" ∨ c.scheme = "https" := by
  unfold splitUrl at h
  split at h
  · exact absurd h (by simp)
  · rename_i s b r
    split at h
    · exact absurd h (by simp)
    · split at h
      · exact absurd h (by simp)
      · rename_i hcond
        injection h with h2
        rw [← h2]
        simp only [Bool.true_and, Bool.not_eq_true', Bool.not_eq_false] at hcond
        rcases Bool.or_eq_true_iff.mp hcond with h1 | h1
        · exact Or.inl (by simpa using h1)
        · exact Or.inr (by simpa using h1)

/-! The reachable-state invariant of a service instance. -/

/-- Invariant of every state a `UrlShortener` instance reaches: the base
is a nonempty, already lowercased authority without slashes that the
domain validator accepts (established by `make`), each `infos` document
stores its own `_id` in `shortUrl`, every short key has the
`<base>/<token>` shape `_shorten` produces, the `urls` index maps a long
key to an existing record holding that long key, and no two long keys
share a short key. -/
structure Wf (v : String → Option String) (st : ShortenerState) : Prop where
  baseNorm : strLower st.base = st.base
  baseNe : st.base ≠ ""
  baseNoSlash : ∀ ch ∈ st.base.data, ch ≠ '/'
  vBase : v st.base = none
  keys : ∀ s i, findOne st.infos s = some i → i.shortUrl = s
  shape : ∀ s i, findOne st.infos s = some i → ∃ t, tokOk t ∧ s = st.base ++ "/" ++ t
  index : ∀ l s, findOne st.urls l = some s →
    ∃ i, findOne st.infos s = some i ∧ i.longUrl = l
  inj : ∀ l₁ l₂ s, findOne st.urls l₁ = some s → findOne st.urls l₂ = some s → l₁ = l₂

theorem tokOk_mem {t : String} (h : tokOk t) : ∀ c ∈ t.data, isB36 c = true :=
  fun c hc => List.all_eq_true.mp h.2 c hc

theorem tokOk_no_slash {t : String} (h : tokOk t) : ∀ c ∈ t.data, c ≠ '/' := by
  intro c hc he
  subst he
  exact absurd (tokOk_mem h _ hc) (by decide)

theorem tokOk_no_lineTerm {t : String} (h : tokOk t) :
    ∀ c ∈ t.data, isLineTerm c = false := by
  intro c hc
  cases hlt : isLineTerm c with
  | false => rfl
  | true =>
    have hb := tokOk_mem h c hc
    simp only [isLineTerm, Bool.or_eq_true, beq_iff_eq] at hlt
    rcases hlt with ((h1 | h1) | h1) | h1 <;> subst h1 <;> exact absurd hb (by decide)

/-! Inversion lemmas for `_lookupInfo`. -/

theorem lookupInfo_short_some (st : ShortenerState) (c : UrlComponents) (r : Info)
    (hb : c.base = st.base) (h : lookupInfo st c = some r) :
    findOne st.infos (c.base ++ c.rest) = some r := by
  simp only [lookupInfo] at h
  rw [if_pos hb] at h
  exact h

theorem lookupInfo_long_some (st : ShortenerState) (c : UrlComponents) (r : Info)
    (hb : c.base ≠ st.base) (h : lookupInfo st c = some r) :
    ∃ s, findOne st.urls (c.base ++ c.rest) = some s ∧ findOne st.infos s = some r := by
  simp only [lookupInfo] at h
  rw [if_neg hb] at h
  split at h
  · exact absurd h (by simp)
  · rename_i s hu
    exact ⟨s, hu, h⟩

theorem lookupInfo_some_finds (v : String → Option String) (st : ShortenerState)
    (c : UrlComponents) (r : Info) (hwf : Wf v st) (h : lookupInfo st c = some r) :
    findOne st.infos r.shortUrl = some r := by
  by_cases hb : c.base = st.base
  · have h' := lookupInfo_short_some st c r hb h
    rw [hwf.keys _ _ h']
    exact h'
  · obtain ⟨s, hu, hi⟩ := lookupInfo_long_some st c r hb h
    rw [hwf.keys _ _ hi]
    exact hi

theorem lookupInfo_none_long (v : String → Option String) (st : ShortenerState)
    (c : UrlComponents) (hwf : Wf v st) (hb : c.base ≠ st.base)
    (h : lookupInfo st c = none) : findOne st.urls (c.base ++ c.rest) = none := by
  simp only [lookupInfo] at h
  rw [if_neg hb] at h
  split at h
  · assumption
  · rename_i s hu
    obtain ⟨i, hi, _⟩ := hwf.index _ _ hu
    rw [h] at hi
    cases hi

/-! Branch lemmas for `add` and `query`. -/

theorem add_on_present (v : String → Option String) (st : ShortenerState)
    (u : String) (c : UrlComponents) (hp : splitUrl v u true = .ok c)
    (hb : c.base ≠ st.base) (i : Info) (hl : lookupInfo st c = some i)
    (hact : i.isActive = true) (k : String) :
    add v st u k = .ok (c.scheme ++ "://" ++ i.shortUrl, st) := by
  unfold add
  rw [hp]
  show (if c.base = st.base then _ else _) = _
  rw [if_neg hb]
  show (match lookupInfo st c with
    | some i => _
    | none => _) = _
  rw [hl]
  simp [hact]

theorem add_on_inactive (v : String → Option String) (st : ShortenerState)
    (u : String) (c : UrlComponents) (hp : splitUrl v u true = .ok c)
    (hb : c.base ≠ st.base) (i : Info) (hl : lookupInfo st c = some i)
    (hact : i.isActive = false) (k : String) :
    add v st u k = .ok (c.scheme ++ "://" ++ i.shortUrl, setActiveStatus st i true) := by
  unfold add
  rw [hp]
  show (if c.base = st.base then _ else _) = _
  rw [if_neg hb]
  show (match lookupInfo st c with
    | some i => _
    | none => _) = _
  rw [hl]
  simp [hact]

theorem add_on_absent (v : String → Option String) (st : ShortenerState)
    (u : String) (c : UrlComponents) (hp : splitUrl v u true = .ok c)
    (hb : c.base ≠ st.base) (hl : lookupInfo st c = none) (k : String) :
    add v st u k = .ok (c.scheme ++ "://" ++ k,
      { st with
        infos := insertOne st.infos k ⟨c.base ++ c.rest, k, 0, true⟩,
        urls := insertOne st.urls (c.base ++ c.rest) k }) := by
  unfold add
  rw [hp]
  show (if c.base = st.base then _ else _) = _
  rw [if_neg hb]
  show (match lookupInfo st c with
    | some i => _
    | none => _) = _
  rw [hl]

theorem query_found (v : String → Option String) (st : ShortenerState)
    (su : String) (c : UrlComponents) (hp : splitUrl v su true = .ok c)
    (hb : st.base = c.base) (i : Info)
    (hl : lookupInfo st c = some i) (hact : i.isActive = true) :
    query v st su = .ok (c.scheme ++ "://" ++ i.longUrl,
      { st with infos := updateOne st.infos i.shortUrl (fun j => { j with count := i.count + 1 }) }) := by
  unfold query
  rw [hp]
  show (if st.base ≠ c.base then _ else _) = _
  rw [if_neg (by simp [hb])]
  show (match lookupInfo st c with
    | none => _
    | some i => _) = _
  rw [hl]
  simp [hact]

theorem query_not_found (v : String → Option String) (st : ShortenerState)
    (su : String) (c : UrlComponents) (hp : splitUrl v su true = .ok c)
    (hb : st.base = c.base) (i : Info)
    (hl : lookupInfo st c = some i) (hact : i.isActive = false) :
    query v st su = .error "NOT_FOUND" := by
  unfold query
  rw [hp]
  show (if st.base ≠ c.base then _ else _) = _
  rw [if_neg (by simp [hb])]
  show (match lookupInfo st c with
    | none => _
    | some i => _) = _
  rw [hl]
  simp [hact]

/-- Record that a successful `add` run returns the long key of the parsed
URL: in the `urls`-index path of `_lookupInfo` the record found stores the
long key it was created for. -/
theorem lookupInfo_long_longUrl (v : String → Option String) (st : ShortenerState)
    (c : UrlComponents) (r : Info) (hwf : Wf v st) (hb : c.base ≠ st.base)
    (h : lookupInfo st c = some r) :
    r.longUrl = c.base ++ c.rest ∧ findOne st.urls (c.base ++ c.rest) = some r.shortUrl := by
  obtain ⟨s, hu, hi⟩ := lookupInfo_long_some st c r hb h
  obtain ⟨i', hi', hl'⟩ := hwf.index _ _ hu
  rw [hi] at hi'
  injection hi' with hi'
  subst hi'
  exact ⟨hl', by rw [hwf.keys _ _ hi]; exact hu⟩

/-- Postcondition of a successful `add` whose key argument satisfies the
allocation loop's postcondition: the returned value is the scheme of the
request followed by a short key under which an active record with the
parsed long key is stored, the `urls` index maps the long key to that
short key, the short key has the `_shorten` shape, and every other
document of both collections is untouched. -/
theorem add_post (v : String → Option String) (st st₁ : ShortenerState)
    (u : String) (c : UrlComponents) (t k val : String)
    (hwf : Wf v st) (hp : splitUrl v u true = .ok c) (hb : c.base ≠ st.base)
    (ht : tokOk t) (hk : k = shorten st t) (hf : findOne st.infos k = none)
    (ha : add v st u k = .ok (val, st₁)) :
    ∃ sk i, val = c.scheme ++ "://" ++ sk ∧
      findOne st₁.infos sk = some i ∧ i.isActive = true ∧ i.shortUrl = sk ∧
      i.longUrl = c.base ++ c.rest ∧
      findOne st₁.urls (c.base ++ c.rest) = some sk ∧
      (∃ t', tokOk t' ∧ sk = st.base ++ "/" ++ t') ∧
      st₁.base = st.base ∧
      (∀ s, s ≠ sk → findOne st₁.infos s = findOne st.infos s) ∧
      (∀ l, l ≠ c.base ++ c.rest → findOne st₁.urls l = findOne st.urls l) := by
  rcases hl : lookupInfo st c with _ | r
  · rw [add_on_absent v st u c hp hb hl k] at ha
    injection ha with ha
    rw [Prod.mk.injEq] at ha
    obtain ⟨hval, hst⟩ := ha
    subst hval
    subst hst
    have hun : findOne st.urls (c.base ++ c.rest) = none :=
      lookupInfo_none_long v st c hwf hb hl
    refine ⟨k, ⟨c.base ++ c.rest, k, 0, true⟩, rfl, ?_, rfl, rfl, rfl, ?_, ⟨t, ht, hk⟩,
        rfl, ?_, ?_⟩
    · exact findOne_insertOne_self _ _ _ hf
    · exact findOne_insertOne_self _ _ _ hun
    · intro s hs
      exact findOne_insertOne_ne _ _ _ _ hs
    · intro l hlne
      exact findOne_insertOne_ne _ _ _ _ hlne
  · obtain ⟨hlong, hurl⟩ := lookupInfo_long_longUrl v st c r hwf hb hl
    have hfind : findOne st.infos r.shortUrl = some r :=
      lookupInfo_some_finds v st c r hwf hl
    obtain ⟨t', ht', hshape⟩ := hwf.shape _ _ hfind
    cases hact : r.isActive with
    | true =>
      rw [add_on_present v st u c hp hb r hl hact k] at ha
      injection ha with ha
      rw [Prod.mk.injEq] at ha
      obtain ⟨hval, hst⟩ := ha
      subst hval
      subst hst
      exact ⟨r.shortUrl, r, rfl, hfind, hact, rfl, hlong, hurl, ⟨t', ht', hshape⟩, rfl,
        fun s _ => rfl, fun l _ => rfl⟩
    | false =>
      rw [add_on_inactive v st u c hp hb r hl hact k] at ha
      injection ha with ha
      rw [Prod.mk.injEq] at ha
      obtain ⟨hval, hst⟩ := ha
      subst hval
      subst hst
      refine ⟨r.shortUrl, { r with isActive := true }, rfl, ?_, rfl, rfl, hlong, hurl,
        ⟨t', ht', hshape⟩, rfl, ?_, fun l _ => rfl⟩
      · show findOne (updateOne st.infos r.shortUrl _) r.shortUrl = _
        rw [findOne_updateOne_self, hfind]
        rfl
      · intro s hs
        exact findOne_updateOne_ne _ _ _ _ hs

/-- A successful `add` whose key argument satisfies the allocation loop's
postcondition preserves the reachable-state invariant. -/
theorem add_wf (v : String → Option String) (st st₁ : ShortenerState)
    (u : String) (c : UrlComponents) (t k val : String)
    (hwf : Wf v st) (hp : splitUrl v u true = .ok c) (hb : c.base ≠ st.base)
    (ht : tokOk t) (hk : k = shorten st t) (hf : findOne st.infos k = none)
    (ha : add v st u k = .ok (val, st₁)) : Wf v st₁ := by
  rcases hl : lookupInfo st c with _ | r
  · rw [add_on_absent v st u c hp hb hl k] at ha
    injection ha with ha
    rw [Prod.mk.injEq] at ha
    obtain ⟨hval, hst⟩ := ha
    subst hst
    have hun : findOne st.urls (c.base ++ c.rest) = none :=
      lookupInfo_none_long v st c hwf hb hl
    refine ⟨hwf.baseNorm, hwf.baseNe, hwf.baseNoSlash, hwf.vBase, ?_, ?_, ?_, ?_⟩
    · intro s i h
      rw [findOne_insertOne] at h
      split at h
      · rename_i w hw
        injection h with h
        subst h
        exact hwf.keys _ _ hw
      · split at h
        · rename_i hs
          injection h with h
          subst h
          exact hs.symm
        · cases h
    · intro s i h
      rw [findOne_insertOne] at h
      split at h
      · rename_i w hw
        exact hwf.shape _ _ hw
      · split at h
        · rename_i hs
          exact ⟨t, ht, by rw [hs, hk]; rfl⟩
        · cases h
    · intro l s h
      rw [findOne_insertOne] at h
      split at h
      · rename_i w hw
        obtain ⟨i, hi, hil⟩ := hwf.index _ _ hw
        injection h with h
        subst h
        exact ⟨i, findOne_insertOne_of_some _ _ _ _ _ hi, hil⟩
      · split at h
        · rename_i hls
          injection h with h
          subst h
          exact ⟨⟨c.base ++ c.rest, k, 0, true⟩, findOne_insertOne_self _ _ _ hf, by rw [hls]⟩
        · cases h
    · intro l₁ l₂ s h₁ h₂
      rw [findOne_insertOne] at h₁ h₂
      split at h₁
      · rename_i w₁ hw₁
        injection h₁ with h₁
        subst h₁
        split at h₂
        · rename_i w₂ hw₂
          injection h₂ with h₂
          subst h₂
          exact hwf.inj _ _ _ hw₁ hw₂
        · split at h₂
          · rename_i hl₂
            injection h₂ with h₂
            obtain ⟨i, hi, _⟩ := hwf.index _ _ hw₁
            rw [← h₂] at hi
            rw [hf] at hi
            cases hi
          · cases h₂
      · split at h₁
        · rename_i hl₁
          injection h₁ with h₁
          split at h₂
          · rename_i w₂ hw₂
            injection h₂ with h₂
            obtain ⟨i, hi, _⟩ := hwf.index _ _ hw₂
            rw [h₂, ← h₁] at hi
            rw [hf] at hi
            cases hi
          · split at h₂
            · rename_i hl₂
              rw [hl₁, hl₂]
            · cases h₂
        · cases h₁
  · have hfind : findOne st.infos r.shortUrl = some r :=
      lookupInfo_some_finds v st c r hwf hl
    cases hact : r.isActive with
    | true =>
      rw [add_on_present v st u c hp hb r hl hact k] at ha
      injection ha with ha
      rw [Prod.mk.injEq] at ha
      obtain ⟨hval, hst⟩ := ha
      subst hst
      exact hwf
    | false =>
      rw [add_on_inactive v st u c hp hb r hl hact k] at ha
      injection ha with ha
      rw [Prod.mk.injEq] at ha
      obtain ⟨hval, hst⟩ := ha
      subst hst
      refine ⟨hwf.baseNorm, hwf.baseNe, hwf.baseNoSlash, hwf.vBase, ?_, ?_, ?_, hwf.inj⟩
      · intro s i h
        simp only [setActiveStatus] at h
        by_cases hs : s = r.shortUrl
        · subst hs
          rw [findOne_updateOne_self, hfind] at h
          injection h with h
          subst h
          rfl
        · rw [findOne_updateOne_ne _ _ _ _ hs] at h
          exact hwf.keys _ _ h
      · intro s i h
        simp only [setActiveStatus] at h
        by_cases hs : s = r.shortUrl
        · subst hs
          exact hwf.shape _ _ hfind
        · rw [findOne_updateOne_ne _ _ _ _ hs] at h
          exact hwf.shape _ _ h
      · intro l s h
        simp only [setActiveStatus] at h
        obtain ⟨i, hi, hil⟩ := hwf.index _ _ h
        by_cases hs : s = r.shortUrl
        · subst hs
          rw [hfind] at hi
          injection hi with hi
          subst hi
          refine ⟨{ r with isActive := true }, ?_, hil⟩
          show findOne (updateOne st.infos r.shortUrl _) r.shortUrl = _
          rw [findOne_updateOne_self, hfind]
          rfl
        · refine ⟨i, ?_, hil⟩
          show findOne (updateOne st.infos r.shortUrl _) s = _
          rw [findOne_updateOne_ne _ _ _ _ hs]
          exact hi

theorem lookupInfo_long_mk (st : ShortenerState) (c : UrlComponents) (s : String)
    (i : Info) (hb : c.base ≠ st.base)
    (hu : findOne st.urls (c.base ++ c.rest) = some s)
    (hi : findOne st.infos s = some i) : lookupInfo st c = some i := by
  simp only [lookupInfo]
  rw [if_neg hb, hu]
  exact hi

/-! The claim theorems. -/

/-- C1: for every valid long URL `u` whose base differs from the service
base, calling `add(u)` twice returns the same value both times, and the
second call leaves the whole state — in particular the stored mapping
record and its `count` field — unchanged.  The hypotheses on `k` are the
postcondition of the key-allocation loop of the first call; the second
call never reaches its allocation loop, so its key argument `k'` is
arbitrary. -/
theorem add_idempotent (v : String → Option String) (st st₁ : ShortenerState)
    (u : String) (c : UrlComponents) (t k val : String)
    (hwf : Wf v st) (hp : splitUrl v u true = .ok c) (hb : c.base ≠ st.base)
    (ht : tokOk t) (hk : k = shorten st t) (hf : findOne st.infos k = none)
    (ha : add v st u k = .ok (val, st₁)) :
    ∀ k', add v st₁ u k' = .ok (val, st₁) := by
  obtain ⟨sk, i, hval, hinfo, hact, hshort, hlong, hurl, hshape, hbase, hfr, hfr'⟩ :=
    add_post v st st₁ u c t k val hwf hp hb ht hk hf ha
  intro k'
  have hb₁ : c.base ≠ st₁.base := by rw [hbase]; exact hb
  have hl₁ : lookupInfo st₁ c = some i := lookupInfo_long_mk st₁ c sk i hb₁ hurl hinfo
  rw [add_on_present v st₁ u c hp hb₁ i hl₁ hact k', hshort, hval]

/-- C10: two `add` calls whose URLs parse to the same base and rest but
to possibly different (http/https) schemes resolve to the same mapping
record and the same short key, because the stored long key strips the
scheme; only the scheme prefix of each returned value follows the
respective call's argument, and the second call changes nothing. -/
theorem add_scheme_insensitive (v : String → Option String) (st st₁ : ShortenerState)
    (u₁ u₂ : String) (c₁ c₂ : UrlComponents) (t k val₁ : String)
    (hwf : Wf v st) (hp₁ : splitUrl v u₁ true = .ok c₁)
    (hp₂ : splitUrl v u₂ true = .ok c₂)
    (hbase : c₂.base = c₁.base) (hrest : c₂.rest = c₁.rest)
    (hb : c₁.base ≠ st.base)
    (ht : tokOk t) (hk : k = shorten st t) (hf : findOne st.infos k = none)
    (ha : add v st u₁ k = .ok (val₁, st₁)) :
    ∃ sk, val₁ = c₁.scheme ++ "://" ++ sk ∧
      ∀ k', add v st₁ u₂ k' = .ok (c₂.scheme ++ "://" ++ sk, st₁) := by
  obtain ⟨sk, i, hval, hinfo, hact, hshort, hlong, hurl, hshape, hbase₁, hfr, hfr'⟩ :=
    add_post v st st₁ u₁ c₁ t k val₁ hwf hp₁ hb ht hk hf ha
  refine ⟨sk, hval, ?_⟩
  intro k'
  have hb₂ : c₂.base ≠ st₁.base := by rw [hbase₁, hbase]; exact hb
  have hurl₂ : findOne st₁.urls (c₂.base ++ c₂.rest) = some sk := by
    rw [hbase, hrest]; exact hurl
  have hl₂ : lookupInfo st₁ c₂ = some i := lookupInfo_long_mk st₁ c₂ sk i hb₂ hurl₂ hinfo
  rw [add_on_present v st₁ u₂ c₂ hp₂ hb₂ i hl₂ hact k', hshort]

theorem lookupInfo_short_mk (st : ShortenerState) (c : UrlComponents) (i : Info)
    (hb : c.base = st.base)
    (hi : findOne st.infos (c.base ++ c.rest) = some i) : lookupInfo st c = some i := by
  simp only [lookupInfo]
  rw [if_pos hb]
  exact hi

/-- C2: for every valid long URL `u` whose base differs from the service
base, `query(add(u).value).value` reconstructs a URL equivalent to `u`:
the scheme, authority and rest returned are exactly the case-normalized
components `splitUrl` extracted from `u`. -/
theorem add_query_roundtrip (v : String → Option String) (st st₁ : ShortenerState)
    (u : String) (c : UrlComponents) (t k val : String)
    (hwf : Wf v st) (hp : splitUrl v u true = .ok c) (hb : c.base ≠ st.base)
    (ht : tokOk t) (hk : k = shorten st t) (hf : findOne st.infos k = none)
    (ha : add v st u k = .ok (val, st₁)) :
    ∃ st₂, query v st₁ val = .ok (c.scheme ++ "://" ++ (c.base ++ c.rest), st₂) := by
  obtain ⟨sk, i, hval, hinfo, hact, hshort, hlong, hurl, ⟨t', ht', hsk⟩, hbase₁, hfr, hfr'⟩ :=
    add_post v st st₁ u c t k val hwf hp hb ht hk hf ha
  have hval' : val = c.scheme ++ "://" ++ (st.base ++ ("/" ++ t')) := by
    rw [hval, hsk]
    simp only [str_append_assoc]
  have hr : ("/" ++ t').data = [] ∨ ∃ rd, ("/" ++ t').data = '/' :: rd :=
    Or.inr ⟨t'.data, rfl⟩
  have hrl : ∀ ch ∈ ("/" ++ t').data, isLineTerm ch = false := by
    intro ch hch
    rw [show ("/" ++ t').data = '/' :: t'.data from rfl] at hch
    rcases List.mem_cons.mp hch with h1 | h1
    · subst h1
      decide
    · exact tokOk_no_lineTerm ht' ch h1
  have hp₂ : splitUrl v val true = .ok ⟨c.scheme, st.base, "/" ++ t'⟩ := by
    rw [hval', splitUrl_reconstruct v c.scheme st.base ("/" ++ t')
      (splitUrl_scheme_cases v u c hp) hwf.baseNe hwf.baseNoSlash hr hrl hwf.vBase,
      hwf.baseNorm]
  have hl₂ : lookupInfo st₁ ⟨c.scheme, st.base, "/" ++ t'⟩ = some i := by
    apply lookupInfo_short_mk
    · show st.base = st₁.base
      rw [hbase₁]
    · show findOne st₁.infos (st.base ++ ("/" ++ t')) = some i
      rw [show st.base ++ ("/" ++ t') = sk from by rw [hsk]; simp only [str_append_assoc]]
      exact hinfo
  have hq := query_found v st₁ val ⟨c.scheme, st.base, "/" ++ t'⟩ hp₂
    (by rw [hbase₁]) i hl₂ hact
  exact ⟨_, by rw [hq, hlong]⟩

theorem append_scheme_cancel {s a b : String} (h : s ++ "://" ++ a = s ++ "://" ++ b) :
    a = b := by
  rw [str_append_assoc, str_append_assoc] at h
  exact str_append_left_cancel (str_append_left_cancel h)

theorem http_https_ne (a b : String) : "http" ++ "://" ++ a ≠ "https" ++ "://" ++ b := by
  intro h
  have hd := congrArg String.data h
  simp only [data_append] at hd
  simp at hd

theorem scheme_value_ne (s₁ s₂ a b : String)
    (hs₁ : s₁ = "http" ∨ s₁ = "https") (hs₂ : s₂ = "http" ∨ s₂ = "https")
    (hab : a ≠ b) : s₁ ++ "://" ++ a ≠ s₂ ++ "://" ++ b := by
  rcases hs₁ with h1 | h1 <;> rcases hs₂ with h2 | h2 <;> subst h1 <;> subst h2
  · intro h
    exact hab (append_scheme_cancel h)
  · exact http_https_ne a b
  · intro h
    exact http_https_ne b a h.symm
  · intro h
    exact hab (append_scheme_cancel h)

/-- C3: two `add` calls on the same instance whose URLs have distinct
long keys (base plus rest after normalization) return distinct short
URLs, and the short keys under which the two mapping records are stored
are distinct as well. -/
theorem add_unique (v : String → Option String) (st st₁ st₂ : ShortenerState)
    (u₁ u₂ : String) (c₁ c₂ : UrlComponents) (t₁ t₂ k₁ k₂ val₁ val₂ : String)
    (hwf : Wf v st)
    (hp₁ : splitUrl v u₁ true = .ok c₁) (hp₂ : splitUrl v u₂ true = .ok c₂)
    (hb₁ : c₁.base ≠ st.base) (hb₂ : c₂.base ≠ st.base)
    (hne : c₁.base ++ c₁.rest ≠ c₂.base ++ c₂.rest)
    (ht₁ : tokOk t₁) (hk₁ : k₁ = shorten st t₁) (hf₁ : findOne st.infos k₁ = none)
    (ha₁ : add v st u₁ k₁ = .ok (val₁, st₁))
    (ht₂ : tokOk t₂) (hk₂ : k₂ = shorten st₁ t₂) (hf₂ : findOne st₁.infos k₂ = none)
    (ha₂ : add v st₁ u₂ k₂ = .ok (val₂, st₂)) :
    val₁ ≠ val₂ ∧ ∃ sk₁ sk₂, val₁ = c₁.scheme ++ "://" ++ sk₁ ∧
      val₂ = c₂.scheme ++ "://" ++ sk₂ ∧ sk₁ ≠ sk₂ := by
  obtain ⟨sk₁, i₁, hval₁, hinfo₁, hact₁, hshort₁, hlong₁, hurl₁, hshape₁, hbase₁, hfr₁, hfr₁'⟩ :=
    add_post v st st₁ u₁ c₁ t₁ k₁ val₁ hwf hp₁ hb₁ ht₁ hk₁ hf₁ ha₁
  have hwf₁ : Wf v st₁ := add_wf v st st₁ u₁ c₁ t₁ k₁ val₁ hwf hp₁ hb₁ ht₁ hk₁ hf₁ ha₁
  have hb₂' : c₂.base ≠ st₁.base := by rw [hbase₁]; exact hb₂
  obtain ⟨sk₂, i₂, hval₂, hinfo₂, hact₂, hshort₂, hlong₂, hurl₂, hshape₂, hbase₂, hfr₂, hfr₂'⟩ :=
    add_post v st₁ st₂ u₂ c₂ t₂ k₂ val₂ hwf₁ hp₂ hb₂' ht₂ hk₂ hf₂ ha₂
  have hwf₂ : Wf v st₂ := add_wf v st₁ st₂ u₂ c₂ t₂ k₂ val₂ hwf₁ hp₂ hb₂' ht₂ hk₂ hf₂ ha₂
  have hurl₁' : findOne st₂.urls (c₁.base ++ c₁.rest) = some sk₁ := by
    rw [hfr₂' _ hne]
    exact hurl₁
  have hskne : sk₁ ≠ sk₂ := by
    intro hskeq
    exact hne (hwf₂.inj _ _ _ hurl₁' (hskeq ▸ hurl₂))
  refine ⟨?_, sk₁, sk₂, hval₁, hval₂, hskne⟩
  rw [hval₁, hval₂]
  exact scheme_value_ne c₁.scheme c₂.scheme sk₁ sk₂
    (splitUrl_scheme_cases v u₁ c₁ hp₁) (splitUrl_scheme_cases v u₂ c₂ hp₂) hskne

theorem deactivate_found (v : String → Option String) (st : ShortenerState)
    (u : String) (c : UrlComponents) (i : Info) (hp : splitUrl v u true = .ok c)
    (hl : lookupInfo st c = some i) :
    deactivate v st u = .ok (if i.isActive then setActiveStatus st i false else st) := by
  unfold deactivate
  rw [hp]
  show (match lookupInfo st c with
    | none => _
    | some i => _) = _
  rw [hl]

theorem info_found (v : String → Option String) (st : ShortenerState)
    (u : String) (c : UrlComponents) (i : Info) (hp : splitUrl v u true = .ok c)
    (hl : lookupInfo st c = some i) : info v st u = .ok i := by
  unfold info
  rw [hp]
  show (match lookupInfo st c with
    | none => _
    | some i => _) = _
  rw [hl]

theorem info_not_found (v : String → Option String) (st : ShortenerState)
    (u : String) (c : UrlComponents) (hp : splitUrl v u true = .ok c)
    (hl : lookupInfo st c = none) : info v st u = .error "NOT_FOUND" := by
  unfold info
  rw [hp]
  show (match lookupInfo st c with
    | none => _
    | some i => _) = _
  rw [hl]

theorem slash_tok_lineTerm {t : String} (ht : tokOk t) :
    ∀ ch ∈ ("/" ++ t).data, isLineTerm ch = false := by
  intro ch hch
  rw [show ("/" ++ t).data = '/' :: t.data from rfl] at hch
  rcases List.mem_cons.mp hch with h1 | h1
  · subst h1
    decide
  · exact tokOk_no_lineTerm ht ch h1

/-- C4: after `deactivate(u)` succeeds on a URL with a mapping record
`r`, `query` on `r`'s short URL (under either scheme) fails with
`NOT_FOUND`, while `info(u)` still succeeds and returns the full record
with `isActive = false`. -/
theorem deactivate_hides (v : String → Option String) (st st₁ : ShortenerState)
    (u sc : String) (c : UrlComponents) (r : Info)
    (hwf : Wf v st) (hsc : sc = "http" ∨ sc = "https")
    (hp : splitUrl v u true = .ok c) (hr : lookupInfo st c = some r)
    (hd : deactivate v st u = .ok st₁) :
    query v st₁ (sc ++ "://" ++ r.shortUrl) = .error "NOT_FOUND" ∧
    info v st₁ u = .ok { r with isActive := false } := by
  have hfind : findOne st.infos r.shortUrl = some r := lookupInfo_some_finds v st c r hwf hr
  suffices hsuf : ∀ st₁' : ShortenerState,
      findOne st₁'.infos r.shortUrl = some { r with isActive := false } →
      st₁'.urls = st.urls → st₁'.base = st.base →
      query v st₁' (sc ++ "://" ++ r.shortUrl) = .error "NOT_FOUND" ∧
      info v st₁' u = .ok { r with isActive := false } by
    rw [deactivate_found v st u c r hp hr] at hd
    injection hd with hd
    cases hact : r.isActive with
    | true =>
      rw [if_pos hact] at hd
      subst hd
      apply hsuf
      · show findOne (updateOne st.infos r.shortUrl _) r.shortUrl = _
        rw [findOne_updateOne_self, hfind]
        rfl
      · rfl
      · rfl
    | false =>
      rw [if_neg (by simp [hact])] at hd
      subst hd
      apply hsuf
      · rw [show ({ r with isActive := false } : Info) = r from by
          obtain ⟨a, b, n, d⟩ := r
          change d = false at hact
          rw [hact]]
        exact hfind
      · rfl
      · rfl
  intro st₁' hkey hurls hbase'
  obtain ⟨t', ht', hsk⟩ := hwf.shape _ _ hfind
  have hvaleq : sc ++ "://" ++ r.shortUrl = sc ++ "://" ++ (st.base ++ ("/" ++ t')) := by
    rw [hsk]
    simp only [str_append_assoc]
  have hp₂ : splitUrl v (sc ++ "://" ++ r.shortUrl) true = .ok ⟨sc, st.base, "/" ++ t'⟩ := by
    rw [hvaleq, splitUrl_reconstruct v sc st.base ("/" ++ t') hsc hwf.baseNe hwf.baseNoSlash
      (Or.inr ⟨t'.data, rfl⟩) (slash_tok_lineTerm ht') hwf.vBase, hwf.baseNorm]
  have hkey' : findOne st₁'.infos (st.base ++ ("/" ++ t')) =
      some { r with isActive := false } := by
    rw [show st.base ++ ("/" ++ t') = r.shortUrl from by rw [hsk]; simp only [str_append_assoc]]
    exact hkey
  constructor
  · exact query_not_found v st₁' _ ⟨sc, st.base, "/" ++ t'⟩ hp₂ hbase'
      { r with isActive := false }
      (lookupInfo_short_mk st₁' _ _ hbase'.symm hkey') rfl
  · by_cases hcb : c.base = st.base
    · have h' := lookupInfo_short_some st c r hcb hr
      have hks := hwf.keys _ _ h'
      apply info_found v st₁' u c _ hp
      apply lookupInfo_short_mk st₁' c _ (by rw [hbase']; exact hcb)
      rw [← hks]
      exact hkey
    · obtain ⟨s, hu, hi⟩ := lookupInfo_long_some st c r hcb hr
      have hks := hwf.keys _ _ hi
      apply info_found v st₁' u c _ hp
      apply lookupInfo_long_mk st₁' c s _ (by rw [hbase']; exact hcb)
      · rw [hurls]
        exact hu
      · rw [← hks]
        exact hkey

/-- C5: `add(u)` on a long URL whose mapping is currently deactivated
returns the original short URL, flips `isActive` back to `true`, and
leaves every other field of the record — in particular `shortUrl` and the
accumulated `count` — as well as every other document and the `urls`
index unchanged. -/
theorem add_reactivates (v : String → Option String) (st : ShortenerState)
    (u : String) (c : UrlComponents) (r : Info) (k : String)
    (hwf : Wf v st) (hp : splitUrl v u true = .ok c) (hb : c.base ≠ st.base)
    (hr : lookupInfo st c = some r) (hin : r.isActive = false) :
    add v st u k = .ok (c.scheme ++ "://" ++ r.shortUrl, setActiveStatus st r true) ∧
    findOne (setActiveStatus st r true).infos r.shortUrl = some { r with isActive := true } ∧
    (∀ s, s ≠ r.shortUrl →
      findOne (setActiveStatus st r true).infos s = findOne st.infos s) ∧
    (setActiveStatus st r true).urls = st.urls := by
  have hfind : findOne st.infos r.shortUrl = some r := lookupInfo_some_finds v st c r hwf hr
  refine ⟨add_on_inactive v st u c hp hb r hr hin k, ?_, ?_, rfl⟩
  · show findOne (updateOne st.infos r.shortUrl _) r.shortUrl = _
    rw [findOne_updateOne_self, hfind]
    rfl
  · intro s hs
    show findOne (updateOne st.infos r.shortUrl _) s = _
    exact findOne_updateOne_ne _ _ _ _ hs

theorem iterQuery_count (v : String → Option String) (n : Nat) :
    ∀ (st : ShortenerState) (su : String) (c : UrlComponents) (r : Info),
    splitUrl v su true = .ok c → c.base = st.base →
    findOne st.infos (c.base ++ c.rest) = some r → r.shortUrl = c.base ++ c.rest →
    r.isActive = true →
    ∃ stn, iterQuery v n st su = .ok stn ∧
      findOne stn.infos (c.base ++ c.rest) = some { r with count := r.count + n } ∧
      (∀ s, s ≠ c.base ++ c.rest → findOne stn.infos s = findOne st.infos s) ∧
      stn.urls = st.urls ∧ stn.base = st.base := by
  induction n with
  | zero =>
    intro st su c r hp hcb hfind hsh hact
    refine ⟨st, rfl, ?_, fun s _ => rfl, rfl, rfl⟩
    rw [show ({ r with count := r.count + 0 } : Info) = r from by
      obtain ⟨a, b, m, d⟩ := r
      rfl]
    exact hfind
  | succ n ih =>
    intro st su c r hp hcb hfind hsh hact
    have hl : lookupInfo st c = some r := lookupInfo_short_mk st c r hcb hfind
    have hq := query_found v st su c hp hcb.symm r hl hact
    have hstep : iterQuery v (n + 1) st su =
        iterQuery v n { st with infos := updateOne st.infos r.shortUrl (fun j => { j with count := r.count + 1 }) } su := by
      show (match query v st su with
        | Except.error e => Except.error e
        | Except.ok (_, st') => iterQuery v n st' su) = _
      rw [hq]
    have hfind' : findOne
        ({ st with infos := updateOne st.infos r.shortUrl (fun j => { j with count := r.count + 1 }) } : ShortenerState).infos (c.base ++ c.rest) =
        some { r with count := r.count + 1 } := by
      have hfindsh : findOne st.infos r.shortUrl = some r := by
        rw [hsh]
        exact hfind
      show findOne (updateOne st.infos r.shortUrl _) (c.base ++ c.rest) = _
      rw [← hsh, findOne_updateOne_self, hfindsh]
      rfl
    obtain ⟨stn, hit, hcount, hframe, hurls, hbase⟩ :=
      ih { st with infos := updateOne st.infos r.shortUrl (fun j => { j with count := r.count + 1 }) } su c { r with count := r.count + 1 } hp hcb hfind' hsh hact
    refine ⟨stn, ?_, ?_, ?_, hurls, hbase⟩
    · rw [hstep]
      exact hit
    · rw [show r.count + 1 + n = r.count + (n + 1) from by omega] at hcount
      exact hcount
    · intro s hs
      rw [hframe s hs]
      show findOne (updateOne st.infos r.shortUrl _) s = _
      rw [← hsh] at hs
      exact findOne_updateOne_ne _ _ _ _ hs

/-- C6: each successful `query` increments the count of exactly the
queried mapping record by one, leaving every other record and the `urls`
index unchanged, so after `n` successful queries of a short URL the
record's count equals the count before plus `n`. -/
theorem query_count_monotone (v : String → Option String) (st : ShortenerState)
    (su : String) (c : UrlComponents) (r : Info) (n : Nat)
    (hwf : Wf v st) (hp : splitUrl v su true = .ok c) (hcb : c.base = st.base)
    (hfind : findOne st.infos (c.base ++ c.rest) = some r) (hact : r.isActive = true) :
    ∃ stn, iterQuery v n st su = .ok stn ∧
      findOne stn.infos (c.base ++ c.rest) = some { r with count := r.count + n } ∧
      (∀ s, s ≠ c.base ++ c.rest → findOne stn.infos s = findOne st.infos s) ∧
      stn.urls = st.urls :=
  match iterQuery_count v n st su c r hp hcb hfind (hwf.keys _ _ hfind) hact with
  | ⟨stn, h1, h2, h3, h4, _⟩ => ⟨stn, h1, h2, h3, h4⟩

/-- C7 counterexample: `info` does restrict the scheme.  With a validator
accepting every authority, `info("ftp://foo.com/x")` fails with
`URL_SYNTAX` even though the URL has the generic `<scheme>://<authority><rest>`
shape with a valid authority, while the same URL under the `http` scheme
reaches the lookup and fails `NOT_FOUND` instead — so the `URL_SYNTAX`
failure is caused by the scheme alone, contradicting the claim. -/
theorem info_scheme_counterexample :
    info acceptAll st0 "ftp://foo.com/x" = .error "URL_SYNTAX" ∧
    info acceptAll st0 "http://foo.com/x" = .error "NOT_FOUND" := by
  decide

/-- C7 (amended): `info(url)` applies the same `/^https?$/i` scheme
restriction as the other operations: for every input of the generic
`<scheme>://<authority><rest>` shape with a valid authority, `info` fails
with `URL_SYNTAX` whenever the scheme is not http/https
(case-insensitively), and otherwise never fails with `URL_SYNTAX` — it
fails `NOT_FOUND` exactly when no mapping exists. -/
theorem info_scheme_restricted (v : String → Option String) (st : ShortenerState)
    (url : String) (s b r : List Char)
    (hscan : scanSplit [] url.data = some (s, b, r)) (hv : v ⟨b⟩ = none) :
    (¬(strLower ⟨s⟩ = "http" ∨ strLower ⟨s⟩ = "https") →
      info v st url = .error "URL_SYNTAX") ∧
    ((strLower ⟨s⟩ = "http" ∨ strLower ⟨s⟩ = "https") →
      info v st url = .error "NOT_FOUND" ∨ ∃ i, info v st url = .ok i) := by
  have hsp : splitUrl v url true =
      (if (true && !(strLower ⟨s⟩ == "http" || strLower ⟨s⟩ == "https")) = true then
        Except.error "URL_SYNTAX"
      else Except.ok ⟨strLower ⟨s⟩, strLower ⟨b⟩, ⟨r⟩⟩) := by
    rw [splitUrl, hscan]
    show (match v ⟨b⟩ with
      | some _ => _
      | none => _) = _
    rw [hv]
  constructor
  · intro hns
    have h1 : (strLower ⟨s⟩ == "http") = false := by
      simp only [beq_eq_false_iff_ne]
      intro he
      exact hns (Or.inl he)
    have h2 : (strLower ⟨s⟩ == "https") = false := by
      simp only [beq_eq_false_iff_ne]
      intro he
      exact hns (Or.inr he)
    have hsp' : splitUrl v url true = .error "URL_SYNTAX" := by
      rw [hsp, h1, h2]
      rfl
    unfold info
    rw [hsp']
  · intro hs
    have hok : splitUrl v url true = .ok ⟨strLower ⟨s⟩, strLower ⟨b⟩, ⟨r⟩⟩ := by
      rw [hsp]
      rcases hs with h | h <;> rw [h] <;> rfl
    rcases hl : lookupInfo st ⟨strLower ⟨s⟩, strLower ⟨b⟩, ⟨r⟩⟩ with _ | i
    · exact Or.inl (info_not_found v st url _ hok hl)
    · exact Or.inr ⟨i, info_found v st url _ i hok hl⟩

/-- C7 witness: the amended theorem applied to a concrete http URL on a
fresh instance — `info` passes the scheme filter and fails `NOT_FOUND`. -/
theorem info_scheme_restricted_witness :
    info acceptAll st0 "http://foo.com/x" = .error "NOT_FOUND" ∨
    ∃ i, info acceptAll st0 "http://foo.com/x" = .ok i :=
  (info_scheme_restricted acceptAll st0 "http://foo.com/x"
    ['h', 't', 't', 'p'] "foo.com".data "/x".data (by decide) rfl).2 (by decide)

/-- C8 counterexample: the construction-time error codes of the source
are `BAD_MONGO_URL` and `BAD_SHORTENER_BASE`, not the `BAD_STORE_URL` and
`BAD_SERVICE_BASE` of the claim: an invalid store connection string (no
`://`) fails with code `BAD_MONGO_URL`, as does a store URL whose scheme
is not `mongodb`. -/
theorem make_codes_counterexample :
    make acceptAll "not-a-url" "example.com:3000" = .error "BAD_MONGO_URL" ∧
    make acceptAll "not-a-url" "example.com:3000" ≠ .error "BAD_STORE_URL" ∧
    make acceptAll "http://foo.com/db" "example.com:3000" = .error "BAD_MONGO_URL" := by
  decide

/-- C8 (amended): `make` fails with error code `BAD_MONGO_URL` for every
store connection string that does not parse or whose scheme is not
`mongodb`, fails with `BAD_SHORTENER_BASE` for every service base the
domain validator rejects, and returns a service handle (base lowercased,
fresh collections) otherwise. -/
theorem make_codes (v : String → Option String) (m b : String) :
    (∀ e, splitUrl v m false = .error e → make v m b = .error "BAD_MONGO_URL") ∧
    (∀ c, splitUrl v m false = .ok c → c.scheme ≠ "mongodb" →
      make v m b = .error "BAD_MONGO_URL") ∧
    (∀ c err, splitUrl v m false = .ok c → c.scheme = "mongodb" → v b = some err →
      make v m b = .error "BAD_SHORTENER_BASE") ∧
    (∀ c, splitUrl v m false = .ok c → c.scheme = "mongodb" → v b = none →
      make v m b = .ok ⟨strLower b, [], []⟩) := by
  refine ⟨?_, ?_, ?_, ?_⟩
  · intro e he
    unfold make
    rw [he]
  · intro c hc hsch
    unfold make
    rw [hc]
    show (if c.scheme ≠ "mongodb" then _ else _) = _
    rw [if_pos hsch]
  · intro c err hc hsch hvb
    unfold make
    rw [hc]
    show (if c.scheme ≠ "mongodb" then _ else _) = _
    rw [if_neg (by simp [hsch])]
    show (match v b with
      | some _ => _
      | none => _) = _
    rw [hvb]
  · intro c hc hsch hvb
    unfold make
    rw [hc]
    show (if c.scheme ≠ "mongodb" then _ else _) = _
    rw [if_neg (by simp [hsch])]
    show (match v b with
      | some _ => _
      | none => _) = _
    rw [hvb]

/-- C8 witness: the amended theorem applied to a concrete well-formed
mongodb URL and an accepted base yields a service handle. -/
theorem make_codes_witness :
    make acceptAll "mongodb://localhost:27017/urls" "example.com:3000" =
      .ok ⟨strLower "example.com:3000", [], []⟩ :=
  (make_codes acceptAll "mongodb://localhost:27017/urls" "example.com:3000").2.2.2
    ⟨"mongodb", "localhost:27017", "/urls"⟩ (by decide) (by decide) rfl

/-- Short key of the single record of the concurrency scenario below. -/
def k0 : String := "example.com:3000/ab"

/-- A service state holding one active mapping with count 0. -/
def stC9 : ShortenerState :=
  ⟨"example.com:3000",
   [(k0, ⟨"foo.com/bar", k0, 0, true⟩)],
   [("foo.com/bar", k0)]⟩

/-- C9: the count update of `query` is not an atomic store-level
increment: the success path decomposes into a read phase (the `count`
field of the record fetched by `_lookupInfo`) and a write phase
(`updateOne` with `$set {count: read + 1}`), as the first conjunct shows.
Run twice sequentially the counter reaches 2, but under the interleaving
in which both calls read before either writes, both writes store `0 + 1`
and the final count is 1 — one increment is lost, contradicting the
atomicity the specification demands. -/
theorem query_count_lost_update :
    query acceptAll stC9 "http://example.com:3000/ab" =
      .ok ("http://foo.com/bar", queryWriteCount stC9 k0 0) ∧
    queryReadCount stC9 k0 = some 0 ∧
    iterQuery acceptAll 2 stC9 "http://example.com:3000/ab" =
      .ok (queryWriteCount (queryWriteCount stC9 k0 0) k0 1) ∧
    queryReadCount (queryWriteCount (queryWriteCount stC9 k0 0) k0 1) k0 = some 2 ∧
    queryReadCount (queryWriteCount (queryWriteCount stC9 k0 0) k0 0) k0 = some 1 := by
  decide

/-! Concrete instances of the invariant, used by the witnesses. -/

theorem findOne_singleton {α : Type} (k s : String) (w : α) :
    findOne [(k, w)] s = if s = k then some w else none := rfl

theorem wf_empty (v : String → Option String) (b : String)
    (h1 : strLower b = b) (h2 : b ≠ "") (h3 : ∀ ch ∈ b.data, ch ≠ '/')
    (h4 : v b = none) : Wf v ⟨b, [], []⟩ := by
  refine ⟨h1, h2, h3, h4, ?_, ?_, ?_, ?_⟩
  · intro s i h
    exact Option.noConfusion h
  · intro s i h
    exact Option.noConfusion h
  · intro l s h
    exact Option.noConfusion h
  · intro l₁ l₂ s hA hB
    exact Option.noConfusion hA

theorem wf_singleton (v : String → Option String) (b k l t : String) (i : Info)
    (h1 : strLower b = b) (h2 : b ≠ "") (h3 : ∀ ch ∈ b.data, ch ≠ '/') (h4 : v b = none)
    (h5 : i.shortUrl = k) (h6 : i.longUrl = l) (h7 : tokOk t) (h8 : k = b ++ "/" ++ t) :
    Wf v ⟨b, [(k, i)], [(l, k)]⟩ := by
  refine ⟨h1, h2, h3, h4, ?_, ?_, ?_, ?_⟩
  · intro s j h
    rw [show (⟨b, [(k, i)], [(l, k)]⟩ : ShortenerState).infos = [(k, i)] from rfl,
        findOne_singleton] at h
    split at h
    · rename_i hs
      injection h with h
      subst h
      rw [h5, hs]
    · cases h
  · intro s j h
    rw [show (⟨b, [(k, i)], [(l, k)]⟩ : ShortenerState).infos = [(k, i)] from rfl,
        findOne_singleton] at h
    split at h
    · rename_i hs
      exact ⟨t, h7, by rw [hs]; exact h8⟩
    · cases h
  · intro l' s h
    rw [show (⟨b, [(k, i)], [(l, k)]⟩ : ShortenerState).urls = [(l, k)] from rfl,
        findOne_singleton] at h
    split at h
    · rename_i hs
      injection h with h
      subst h
      refine ⟨i, ?_, by rw [h6, hs]⟩
      rw [show (⟨b, [(k, i)], [(l, k)]⟩ : ShortenerState).infos = [(k, i)] from rfl,
          findOne_singleton, if_pos rfl]
    · cases h
  · intro l₁ l₂ s hA hB
    rw [show (⟨b, [(k, i)], [(l, k)]⟩ : ShortenerState).urls = [(l, k)] from rfl,
        findOne_singleton] at hA hB
    split at hA
    · rename_i hA'
      split at hB
      · rename_i hB'
        rw [hA', hB']
      · cases hB
    · cases hA

theorem st0_wf : Wf acceptAll st0 :=
  wf_empty acceptAll "example.com:3000" (by decide) (by decide) (by decide) rfl

/-- The active mapping record of the concrete scenarios. -/
def recA : Info := ⟨"foo.com/bar", "example.com:3000/ab", 0, true⟩

/-- The state of `st0` after `add("http://foo.com/bar")` allocated the
short key `example.com:3000/ab`. -/
def stA : ShortenerState :=
  ⟨"example.com:3000",
   [("example.com:3000/ab", recA)],
   [("foo.com/bar", "example.com:3000/ab")]⟩

theorem stA_wf : Wf acceptAll stA :=
  wf_singleton acceptAll "example.com:3000" "example.com:3000/ab" "foo.com/bar" "ab" recA
    (by decide) (by decide) (by decide) rfl (by decide) (by decide) (by decide) (by decide)

/-- The record of `stA` after deactivation. -/
def recD : Info := ⟨"foo.com/bar", "example.com:3000/ab", 0, false⟩

/-- The state of `stA` after `deactivate("http://foo.com/bar")`. -/
def stD : ShortenerState :=
  ⟨"example.com:3000",
   [("example.com:3000/ab", recD)],
   [("foo.com/bar", "example.com:3000/ab")]⟩

theorem stD_wf : Wf acceptAll stD :=
  wf_singleton acceptAll "example.com:3000" "example.com:3000/ab" "foo.com/bar" "ab" recD
    (by decide) (by decide) (by decide) rfl (by decide) (by decide) (by decide) (by decide)

/-! Witnesses: each claim theorem with hypotheses applied at concrete inputs. -/

/-- C1 witness: concrete run of the idempotency theorem. -/
theorem add_idempotent_witness :
    add acceptAll stA "http://foo.com/bar" "zz" =
      .ok ("http://example.com:3000/ab", stA) :=
  add_idempotent acceptAll st0 stA "http://foo.com/bar" ⟨"http", "foo.com", "/bar"⟩
    "ab" "example.com:3000/ab" "http://example.com:3000/ab"
    st0_wf (by decide) (by decide) (by decide) (by decide) rfl (by decide) "zz"

/-- C2 witness: concrete run of the round-trip theorem. -/
theorem add_query_roundtrip_witness :
    ∃ st₂, query acceptAll stA "http://example.com:3000/ab" =
      .ok ("http" ++ "://" ++ ("foo.com" ++ "/bar"), st₂) :=
  add_query_roundtrip acceptAll st0 stA "http://foo.com/bar" ⟨"http", "foo.com", "/bar"⟩
    "ab" "example.com:3000/ab" "http://example.com:3000/ab"
    st0_wf (by decide) (by decide) (by decide) (by decide) rfl (by decide)

/-- C3 witness: concrete run of the uniqueness theorem on two distinct
long URLs. -/
theorem add_unique_witness :
    ("http://example.com:3000/ab" : String) ≠ "http://example.com:3000/cd" ∧
    ∃ sk₁ sk₂, ("http://example.com:3000/ab" : String) = "http" ++ "://" ++ sk₁ ∧
      ("http://example.com:3000/cd" : String) = "http" ++ "://" ++ sk₂ ∧ sk₁ ≠ sk₂ :=
  add_unique acceptAll st0 stA
    ⟨"example.com:3000",
     [("example.com:3000/ab", recA),
      ("example.com:3000/cd", ⟨"bar.com/x", "example.com:3000/cd", 0, true⟩)],
     [("foo.com/bar", "example.com:3000/ab"), ("bar.com/x", "example.com:3000/cd")]⟩
    "http://foo.com/bar" "http://bar.com/x"
    ⟨"http", "foo.com", "/bar"⟩ ⟨"http", "bar.com", "/x"⟩
    "ab" "cd" "example.com:3000/ab" "example.com:3000/cd"
    "http://example.com:3000/ab" "http://example.com:3000/cd"
    st0_wf (by decide) (by decide) (by decide) (by decide) (by decide)
    (by decide) (by decide) (by decide) (by decide)
    (by decide) (by decide) (by decide) (by decide)

/-- C4 witness: concrete run of the deactivation theorem. -/
theorem deactivate_hides_witness :
    query acceptAll stD ("http" ++ "://" ++ recA.shortUrl) = .error "NOT_FOUND" ∧
    info acceptAll stD "http://foo.com/bar" = .ok { recA with isActive := false } :=
  deactivate_hides acceptAll stA stD "http://foo.com/bar" "http"
    ⟨"http", "foo.com", "/bar"⟩ recA
    stA_wf (Or.inl rfl) (by decide) (by decide) (by decide)

/-- C5 witness: concrete run of the reactivation theorem. -/
theorem add_reactivates_witness :
    add acceptAll stD "http://foo.com/bar" "kk" =
      .ok ("http" ++ "://" ++ recD.shortUrl, setActiveStatus stD recD true) ∧
    findOne (setActiveStatus stD recD true).infos recD.shortUrl =
      some { recD with isActive := true } ∧
    (∀ s, s ≠ recD.shortUrl →
      findOne (setActiveStatus stD recD true).infos s = findOne stD.infos s) ∧
    (setActiveStatus stD recD true).urls = stD.urls :=
  add_reactivates acceptAll stD "http://foo.com/bar" ⟨"http", "foo.com", "/bar"⟩
    recD "kk" stD_wf (by decide) (by decide) (by decide) rfl

/-- C6 witness: concrete run of the count-monotonicity theorem with two
queries. -/
theorem query_count_monotone_witness :
    ∃ stn, iterQuery acceptAll 2 stA "http://example.com:3000/ab" = .ok stn ∧
      findOne stn.infos ("example.com:3000" ++ "/ab") =
        some { recA with count := recA.count + 2 } ∧
      (∀ s, s ≠ "example.com:3000" ++ "/ab" →
        findOne stn.infos s = findOne stA.infos s) ∧
      stn.urls = stA.urls :=
  query_count_monotone acceptAll stA "http://example.com:3000/ab"
    ⟨"http", "example.com:3000", "/ab"⟩ recA 2
    stA_wf (by decide) (by decide) (by decide) rfl

/-- C10 witness: adding the same path under the other scheme returns the
same short key with the second call's scheme and changes nothing. -/
theorem add_scheme_insensitive_witness :
    ∃ sk, ("http://example.com:3000/ab" : String) = "http" ++ "://" ++ sk ∧
      ∀ k', add acceptAll stA "https://foo.com/bar" k' =
        .ok ("https" ++ "://" ++ sk, stA) :=
  add_scheme_insensitive acceptAll st0 stA "http://foo.com/bar" "https://foo.com/bar"
    ⟨"http", "foo.com", "/bar"⟩ ⟨"https", "foo.com", "/bar"⟩
    "ab" "example.com:3000/ab" "http://example.com:3000/ab"
    st0_wf (by decide) (by decide) (by decide) (by decide) (by decide)
    (by decide) (by decide) (by decide) (by decide)

end UrlShort
